import Mathlib

/-!
Verification of the derive GPS-track viewer core: the binary `search`
utility, the `getSport` classifier, the GPX/TCX/FIT/JSON track extractors,
the XML dispatch of `extractTracks`, and the playback/animation engine
(`animateTracks`/`stopAnimation`).  Each definition is a shallow embedding
of the corresponding JavaScript source.
-/

/-- Model of a JavaScript number as it occurs in this code base: a rational
(`num`), `NaN` (`nan`, e.g. from `parseFloat` of a non-numeric string or
arithmetic on `undefined`), or negative infinity (`ninf`, the seed of
`Math.max`). -/
inductive JSNum where
  | num (q : ℚ)
  | nan
  | ninf
deriving DecidableEq

/-- Model of a JavaScript `Date` built by `new Date(s)`: kept as the source
string, since the claims only compare dates built from strings for
equality. -/
structure JSDate where
  str : String
deriving DecidableEq

/-- Errors thrown by the extraction layer: `error m` models `new Error(m)`,
`typeError` models the `TypeError` raised by reading a property of
`undefined`, and `thrown m` models a thrown plain string. -/
inductive JsErr where
  | error (msg : String)
  | typeError
  | thrown (msg : String)
deriving DecidableEq

/-- Digit list to natural number, most significant first (helper for the
`parseFloat` model). -/
def digitsToNat (l : List Char) : Nat :=
  l.foldl (fun a c => a * 10 + (c.toNat - 48)) 0

/-- Model of the JavaScript builtin `parseFloat`: an optional sign followed
by decimal digits with an optional fractional part; any string with no such
numeric prefix yields `NaN`.  (Exponents, `Infinity` and leading whitespace
are not modelled; no claim exercises them.) -/
def parseFloat (s : String) : JSNum :=
  let cs := s.data
  let signed : ℚ × List Char :=
    match cs with
    | '-' :: r => (-1, r)
    | '+' :: r => (1, r)
    | _ => (1, cs)
  let ip := signed.2.takeWhile Char.isDigit
  let rest := signed.2.drop ip.length
  let fp :=
    match rest with
    | '.' :: r => r.takeWhile Char.isDigit
    | _ => []
  if ip = [] ∧ fp = [] then JSNum.nan
  else JSNum.num (signed.1 * ((digitsToNat ip : ℚ) + (digitsToNat fp : ℚ) / (10 : ℚ) ^ fp.length))

/-- `parseFloat` applied to a possibly-`undefined` string:
`parseFloat(undefined)` coerces `undefined` to the string "undefined",
which parses to `NaN`. -/
def parseFloatOpt (o : Option String) : JSNum :=
  match o with
  | none => JSNum.nan
  | some s => parseFloat s

/-- The loop of the `search` function (part_000 lines 592-608): classic
binary search with `low`/`high` as (possibly negative) integers.  `mid` is
`low + ((high - low) >>> 1)`; inside the loop `high - low` is nonnegative,
so the unsigned shift is floor division by two of the difference.  On a
miss the function returns `~low`, i.e. `-(low + 1)`. -/
def searchLoop {α κ : Type} [Inhabited α] (arr : List α) (target : κ)
    (comparator : α → κ → Int) (low high : Int) : Int :=
  if h : low ≤ high then
    let mid : Int := low + ((high - low).toNat / 2 : Nat)
    let c := comparator (arr.getD mid.toNat default) target
    if c < 0 then searchLoop arr target comparator (mid + 1) high
    else if 0 < c then searchLoop arr target comparator low (mid - 1)
    else mid
  else
    -(low + 1)
termination_by (high + 1 - low).toNat
decreasing_by
  all_goals simp_wf
  all_goals omega

/-- The exported `search(array, target, comparator)` of part_000: binary
search over the whole array, `high` starting at `array.length - 1`. -/
def search {α κ : Type} [Inhabited α] (arr : List α) (target : κ)
    (comparator : α → κ → Int) : Int :=
  searchLoop arr target comparator 0 ((arr.length : Int) - 1)

/-- Reference linear scan (from the spec's property test): walk the array
left to right; on the first element comparing `≥ 0`, return its index if it
is an exact match and otherwise the bitwise complement of that insertion
point; if every element compares `< 0`, return the complement of the
length. -/
def linSearchAux {α κ : Type} (target : κ) (comparator : α → κ → Int) :
    List α → Nat → Int
  | [], i => -((i : Int) + 1)
  | a :: rest, i =>
    let c := comparator a target
    if c < 0 then linSearchAux target comparator rest (i + 1)
    else if c = 0 then (i : Int)
    else -((i : Int) + 1)

/-- Reference linear scan over the whole array. -/
def linSearch {α κ : Type} (arr : List α) (target : κ)
    (comparator : α → κ → Int) : Int :=
  linSearchAux target comparator arr 0

/-- Miss case of the binary search loop: when `low > high` the loop returns
the complement of `low`, which under the loop invariants is the insertion
point. -/
theorem searchLoop_base {α κ : Type} [Inhabited α] (arr : List α) (t : κ)
    (cmp : α → κ → Int) (low high : Int)
    (hlow : 0 ≤ low) (hlow2 : low ≤ (arr.length : Int))
    (inv1 : ∀ j : Nat, j < arr.length → (j : Int) < low → cmp (arr.getD j default) t < 0)
    (inv2 : ∀ j : Nat, j < arr.length → high < (j : Int) → 0 < cmp (arr.getD j default) t)
    (h : ¬ low ≤ high) :
    ∃ ip : Nat, searchLoop arr t cmp low high = -((ip : Int) + 1) ∧ ip ≤ arr.length ∧
      (∀ j : Nat, j < arr.length → j < ip → cmp (arr.getD j default) t < 0) ∧
      (∀ j : Nat, j < arr.length → ip ≤ j → 0 < cmp (arr.getD j default) t) := by
  refine ⟨low.toNat, ?_, by omega, ?_, ?_⟩
  · rw [searchLoop, dif_neg h, Int.toNat_of_nonneg hlow]
  · intro j hj hj2
    exact inv1 j hj (by omega)
  · intro j hj hj2
    exact inv2 j hj (by omega)

/-- Invariant-based characterization of the binary search loop: for an
array whose comparator values are monotone in the index, the loop either
returns the index of an exact match, or the complement of the insertion
point (all indices below it compare negative, all at or above it compare
positive). -/
theorem searchLoop_spec {α κ : Type} [Inhabited α] (arr : List α) (t : κ)
    (cmp : α → κ → Int)
    (Hmono : ∀ i j : Nat, i ≤ j → j < arr.length →
      cmp (arr.getD i default) t ≤ cmp (arr.getD j default) t) :
    ∀ (n : Nat) (low high : Int), (high + 1 - low).toNat ≤ n → 0 ≤ low →
    low ≤ (arr.length : Int) → high < (arr.length : Int) →
    (∀ j : Nat, j < arr.length → (j : Int) < low → cmp (arr.getD j default) t < 0) →
    (∀ j : Nat, j < arr.length → high < (j : Int) → 0 < cmp (arr.getD j default) t) →
    (∃ m : Nat, searchLoop arr t cmp low high = (m : Int) ∧ m < arr.length ∧
      cmp (arr.getD m default) t = 0) ∨
    (∃ ip : Nat, searchLoop arr t cmp low high = -((ip : Int) + 1) ∧ ip ≤ arr.length ∧
      (∀ j : Nat, j < arr.length → j < ip → cmp (arr.getD j default) t < 0) ∧
      (∀ j : Nat, j < arr.length → ip ≤ j → 0 < cmp (arr.getD j default) t)) := by
  intro n
  induction n with
  | zero =>
      intro low high hn hlow hlow2 hhigh inv1 inv2
      exact Or.inr (searchLoop_base arr t cmp low high hlow hlow2 inv1 inv2 (by omega))
  | succ n ih =>
      intro low high hn hlow hlow2 hhigh inv1 inv2
      by_cases hle : low ≤ high
      · have hd : ((high - low).toNat / 2 : Nat) ≤ high - low := by omega
        have hd0 : (0 : Int) ≤ ((high - low).toNat / 2 : Nat) := by omega
        rw [searchLoop, dif_pos hle]
        simp only
        set mid : Int := low + ((high - low).toNat / 2 : Nat) with hmiddef
        have hmid1 : low ≤ mid := by omega
        have hmid2 : mid ≤ high := by omega
        have hmidlen : mid.toNat < arr.length := by omega
        have hmidcast : ((mid.toNat : Int)) = mid := by omega
        by_cases hc1 : cmp (arr.getD mid.toNat default) t < 0
        · rw [if_pos hc1]
          refine ih (mid + 1) high (by omega) (by omega) (by omega) hhigh ?_ inv2
          intro j hj hj2
          calc cmp (arr.getD j default) t ≤ cmp (arr.getD mid.toNat default) t :=
                Hmono j mid.toNat (by omega) hmidlen
            _ < 0 := hc1
        · rw [if_neg hc1]
          by_cases hc2 : 0 < cmp (arr.getD mid.toNat default) t
          · rw [if_pos hc2]
            refine ih low (mid - 1) (by omega) hlow hlow2 (by omega) inv1 ?_
            intro j hj hj2
            calc (0 : Int) < cmp (arr.getD mid.toNat default) t := hc2
              _ ≤ cmp (arr.getD j default) t := Hmono mid.toNat j (by omega) hj
          · rw [if_neg hc2]
            exact Or.inl ⟨mid.toNat, by omega, hmidlen, by omega⟩
      · exact Or.inr (searchLoop_base arr t cmp low high hlow hlow2 inv1 inv2 hle)

/-- On an array with monotone comparator values and no exact match, the
reference linear scan returns the complement of the number of elements
comparing below the target. -/
theorem linSearchAux_miss {α κ : Type} (t : κ) (cmp : α → κ → Int) :
    ∀ (l : List α), List.Pairwise (fun a b => cmp a t ≤ cmp b t) l →
    (∀ a ∈ l, cmp a t ≠ 0) → ∀ i : Nat,
    linSearchAux t cmp l i =
      -((l.countP (fun a => decide (cmp a t < 0)) : Int) + (i : Int) + 1) := by
  intro l
  induction l with
  | nil =>
      intro _ _ i
      simp [linSearchAux]
  | cons a rest ihl =>
      intro hp hz i
      have hpair := (List.pairwise_cons.mp hp).1
      have hptail := (List.pairwise_cons.mp hp).2
      have hza : cmp a t ≠ 0 := hz a (List.mem_cons_self a rest)
      by_cases hc : cmp a t < 0
      · rw [linSearchAux]
        simp only [if_pos hc]
        rw [ihl hptail (fun b hb => hz b (List.mem_cons_of_mem a hb)) (i + 1)]
        rw [List.countP_cons_of_pos _ _ (by simpa using hc)]
        push_cast
        ring
      · rw [linSearchAux]
        simp only [if_neg hc, if_neg hza]
        have hcount : rest.countP (fun a => decide (cmp a t < 0)) = 0 := by
          rw [List.countP_eq_zero]
          intro b hb
          have : cmp a t ≤ cmp b t := hpair b hb
          simp only [decide_eq_true_eq]
          omega
        rw [List.countP_cons_of_neg _ _ (by simpa using hc), hcount]
        push_cast
        ring

/-- On an array with monotone comparator values containing an exact match,
the reference linear scan returns the index of a match. -/
theorem linSearchAux_hit {α κ : Type} [Inhabited α] (t : κ) (cmp : α → κ → Int) :
    ∀ (l : List α), List.Pairwise (fun a b => cmp a t ≤ cmp b t) l →
    (∃ a ∈ l, cmp a t = 0) → ∀ i : Nat,
    ∃ m : Nat, linSearchAux t cmp l i = ((i + m : Nat) : Int) ∧ m < l.length ∧
      cmp (l.getD m default) t = 0 := by
  intro l
  induction l with
  | nil =>
      intro _ hex i
      simp at hex
  | cons a rest ihl =>
      intro hp hex i
      have hpair := (List.pairwise_cons.mp hp).1
      have hptail := (List.pairwise_cons.mp hp).2
      by_cases hc : cmp a t < 0
      · have hexr : ∃ b ∈ rest, cmp b t = 0 := by
          rcases hex with ⟨b, hb, hb0⟩
          rcases List.mem_cons.mp hb with rfl | hbr
          · omega
          · exact ⟨b, hbr, hb0⟩
        rcases ihl hptail hexr (i + 1) with ⟨m, hres, hmlen, hm0⟩
        refine ⟨m + 1, ?_, by simpa using Nat.succ_lt_succ hmlen, ?_⟩
        · rw [linSearchAux]
          simp only [if_pos hc]
          rw [hres]
          congr 1
          omega
        · simpa [List.getD_cons_succ] using hm0
      · by_cases hz : cmp a t = 0
        · refine ⟨0, ?_, by simp, by simpa [List.getD_cons_zero] using hz⟩
          rw [linSearchAux]
          simp [if_neg hc, hz]
        · exfalso
          rcases hex with ⟨b, hb, hb0⟩
          rcases List.mem_cons.mp hb with rfl | hbr
          · exact hz hb0
          · have : cmp a t ≤ cmp b t := hpair b hbr
            omega

/-- A predicate that holds exactly on the indices below `k` has count `k`. -/
theorem countP_of_split {α : Type} [Inhabited α] (p : α → Bool) :
    ∀ (l : List α) (k : Nat), k ≤ l.length →
    (∀ j : Nat, j < l.length → ((j < k) ↔ p (l.getD j default) = true)) →
    l.countP p = k := by
  intro l
  induction l with
  | nil =>
      intro k hk _
      simp at hk
      simp [hk]
  | cons a rest ihl =>
      intro k hk hsplit
      match k with
      | 0 =>
        rw [List.countP_eq_zero]
        intro b hb
        rcases List.mem_cons.mp hb with rfl | hbr
        · have := (hsplit 0 (by simp)).mpr
          simpa [List.getD_cons_zero] using fun hpb => Nat.lt_irrefl 0 (this hpb)
        · rcases List.mem_iff_getElem.mp hbr with ⟨j, hj, rfl⟩
          intro hpb
          have hgd : (a :: rest).getD (j + 1) default = rest[j] := by
            rw [List.getD_cons_succ]
            exact List.getD_eq_getElem rest default hj
          have := (hsplit (j + 1) (by simpa using Nat.succ_lt_succ hj)).mpr
          rw [hgd] at this
          exact Nat.not_lt_zero _ (this hpb)
      | k' + 1 =>
        have hpa : p a = true := by
          have := (hsplit 0 (by simp)).mp (by omega)
          simpa [List.getD_cons_zero] using this
        rw [List.countP_cons_of_pos _ _ hpa]
        rw [ihl k' (by simpa using hk) ?_]
        intro j hj
        have := hsplit (j + 1) (by simpa using Nat.succ_lt_succ hj)
        rw [List.getD_cons_succ] at this
        constructor
        · intro h
          exact this.mp (by omega)
        · intro h
          have := this.mpr h
          omega

/-- Pairwise monotonicity of comparator values gives index monotonicity. -/
theorem pairwise_mono_getD {α κ : Type} [Inhabited α] (arr : List α) (t : κ)
    (cmp : α → κ → Int)
    (H : List.Pairwise (fun a b => cmp a t ≤ cmp b t) arr) :
    ∀ i j : Nat, i ≤ j → j < arr.length →
      cmp (arr.getD i default) t ≤ cmp (arr.getD j default) t := by
  intro i j hij hj
  rcases Nat.eq_or_lt_of_le hij with rfl | hlt
  · exact le_refl _
  · have hi : i < arr.length := Nat.lt_trans hlt hj
    rw [List.getD_eq_getElem arr default hi, List.getD_eq_getElem arr default hj]
    exact (List.pairwise_iff_getElem.mp H) i j hi hj hlt

/-- C2: on an array sorted ascending under the comparator, `search` returns
an index of an exact match when one exists, and otherwise the bitwise
complement of the insertion point; in particular it returns the complement
of 0 on the empty array and on a target before the first element, and the
complement of the length on a target after the last element — and it agrees
with the reference linear scan: identical results on every miss, and an
exact-match index from each on every hit. -/
theorem claim_C2_search_correct {α κ : Type} [Inhabited α] (arr : List α) (t : κ)
    (cmp : α → κ → Int)
    (Hsorted : List.Pairwise (fun a b => cmp a t ≤ cmp b t) arr) :
    ((∃ j : Nat, j < arr.length ∧ cmp (arr.getD j default) t = 0) →
        ∃ m : Nat, m < arr.length ∧ search arr t cmp = (m : Int) ∧
          cmp (arr.getD m default) t = 0)
    ∧ ((∀ j : Nat, j < arr.length → cmp (arr.getD j default) t ≠ 0) →
        search arr t cmp = -((arr.countP (fun a => decide (cmp a t < 0)) : Int) + 1))
    ∧ (arr = [] → search arr t cmp = -1)
    ∧ ((∀ j : Nat, j < arr.length → 0 < cmp (arr.getD j default) t) →
        search arr t cmp = -1)
    ∧ ((∀ j : Nat, j < arr.length → cmp (arr.getD j default) t < 0) →
        search arr t cmp = -((arr.length : Int) + 1))
    ∧ ((search arr t cmp < 0 ↔ linSearch arr t cmp < 0)
        ∧ (search arr t cmp < 0 → search arr t cmp = linSearch arr t cmp)
        ∧ (0 ≤ search arr t cmp →
            ∃ m : Nat, m < arr.length ∧ search arr t cmp = (m : Int) ∧
              cmp (arr.getD m default) t = 0)
        ∧ (0 ≤ linSearch arr t cmp →
            ∃ m : Nat, m < arr.length ∧ linSearch arr t cmp = (m : Int) ∧
              cmp (arr.getD m default) t = 0)) := by
  have Hmono := pairwise_mono_getD arr t cmp Hsorted
  have S := searchLoop_spec arr t cmp Hmono arr.length 0 ((arr.length : Int) - 1)
    (by omega) (by omega) (by omega) (by omega)
    (by intro j hj hj2; omega)
    (by intro j hj hj2; omega)
  have hs : search arr t cmp = searchLoop arr t cmp 0 ((arr.length : Int) - 1) := rfl
  have main1 : (∃ j : Nat, j < arr.length ∧ cmp (arr.getD j default) t = 0) →
      ∃ m : Nat, m < arr.length ∧ search arr t cmp = (m : Int) ∧
        cmp (arr.getD m default) t = 0 := by
    rintro ⟨j, hj, hj0⟩
    rcases S with ⟨m, hres, hmlen, hm0⟩ | ⟨ip, hres, hiplen, hpre, hsuf⟩
    · exact ⟨m, hmlen, by rw [hs, hres], hm0⟩
    · exfalso
      by_cases hjip : j < ip
      · have := hpre j hj hjip
        omega
      · have := hsuf j hj (by omega)
        omega
  have main2 : (∀ j : Nat, j < arr.length → cmp (arr.getD j default) t ≠ 0) →
      search arr t cmp = -((arr.countP (fun a => decide (cmp a t < 0)) : Int) + 1) := by
    intro hno
    rcases S with ⟨m, hres, hmlen, hm0⟩ | ⟨ip, hres, hiplen, hpre, hsuf⟩
    · exact absurd hm0 (hno m hmlen)
    · have hcount : arr.countP (fun a => decide (cmp a t < 0)) = ip := by
        refine countP_of_split _ arr ip hiplen ?_
        intro j hj
        simp only [decide_eq_true_eq]
        constructor
        · exact fun h => hpre j hj h
        · intro h
          by_contra hcon
          have := hsuf j hj (by omega)
          omega
      rw [hs, hres, hcount]
  have noMatchOfAllPos : (∀ j : Nat, j < arr.length → 0 < cmp (arr.getD j default) t) →
      ∀ j : Nat, j < arr.length → cmp (arr.getD j default) t ≠ 0 := by
    intro hpos j hj
    have := hpos j hj
    omega
  have noMatchOfAllNeg : (∀ j : Nat, j < arr.length → cmp (arr.getD j default) t < 0) →
      ∀ j : Nat, j < arr.length → cmp (arr.getD j default) t ≠ 0 := by
    intro hneg j hj
    have := hneg j hj
    omega
  refine ⟨main1, main2, ?_, ?_, ?_, ?_⟩
  · intro h
    subst h
    simp [search, searchLoop]
  · intro hpos
    have hc0 : arr.countP (fun a => decide (cmp a t < 0)) = 0 := by
      rw [List.countP_eq_zero]
      intro b hb
      rcases List.mem_iff_getElem.mp hb with ⟨j, hj, rfl⟩
      have := hpos j hj
      rw [List.getD_eq_getElem arr default hj] at this
      simp only [decide_eq_true_eq]
      omega
    rw [main2 (noMatchOfAllPos hpos), hc0]
    norm_num
  · intro hneg
    have hcl : arr.countP (fun a => decide (cmp a t < 0)) = arr.length := by
      rw [List.countP_eq_length]
      intro b hb
      rcases List.mem_iff_getElem.mp hb with ⟨j, hj, rfl⟩
      have := hneg j hj
      rw [List.getD_eq_getElem arr default hj] at this
      simp only [decide_eq_true_eq]
      omega
    rw [main2 (noMatchOfAllNeg hneg), hcl]
  · by_cases hex : ∃ j : Nat, j < arr.length ∧ cmp (arr.getD j default) t = 0
    · rcases main1 hex with ⟨m, hmlen, hres, hm0⟩
      have hexmem : ∃ a ∈ arr, cmp a t = 0 := by
        rcases hex with ⟨j, hj, hj0⟩
        refine ⟨arr[j], List.getElem_mem hj, ?_⟩
        rw [List.getD_eq_getElem arr default hj] at hj0
        exact hj0
      rcases linSearchAux_hit t cmp arr Hsorted hexmem 0 with ⟨m2, hres2, hm2len, hm20⟩
      have hlin : linSearch arr t cmp = ((m2 : Nat) : Int) := by
        rw [linSearch, hres2]
        norm_num
      refine ⟨?_, ?_, ?_, ?_⟩
      · constructor
        · intro h
          rw [hres] at h
          omega
        · intro h
          rw [hlin] at h
          omega
      · intro h
        rw [hres] at h
        omega
      · intro _
        exact ⟨m, hmlen, hres, hm0⟩
      · intro _
        exact ⟨m2, hm2len, hlin, hm20⟩
    · have hno : ∀ j : Nat, j < arr.length → cmp (arr.getD j default) t ≠ 0 := by
        intro j hj
        by_contra hcon
        exact hex ⟨j, hj, by omega⟩
      have hnomem : ∀ a ∈ arr, cmp a t ≠ 0 := by
        intro b hb
        rcases List.mem_iff_getElem.mp hb with ⟨j, hj, rfl⟩
        have := hno j hj
        rw [List.getD_eq_getElem arr default hj] at this
        exact this
      have hres := main2 hno
      have hlin : linSearch arr t cmp =
          -((arr.countP (fun a => decide (cmp a t < 0)) : Int) + 1) := by
        rw [linSearch, linSearchAux_miss t cmp arr Hsorted hnomem 0]
        norm_num
      refine ⟨?_, ?_, ?_, ?_⟩
      · constructor
        · intro _
          rw [hlin]
          omega
        · intro _
          rw [hres]
          omega
      · intro _
        rw [hres, hlin]
      · intro h
        rw [hres] at h
        omega
      · intro h
        rw [hlin] at h
        omega

/-- Witness for C2: on the sorted array [1, 3, 5] with subtraction
comparator and target 4, the insertion point is 2 and `search` returns its
complement, -3. -/
theorem claim_C2_search_correct_witness :
    search ([1, 3, 5] : List Int) (4 : Int) (fun a b => a - b) = -3 := by
  have h := claim_C2_search_correct ([1, 3, 5] : List Int) (4 : Int) (fun a b => a - b)
    (by decide)
  rw [h.2.1 (by decide)]
  decide

/-- ASCII lowercase of a string, modelling the JavaScript
`toLowerCase` calls in this code base (all compared strings are ASCII). -/
def strToLower (s : String) : String :=
  ⟨s.data.map Char.toLower⟩

/-- Does pat occur as a contiguous run inside the character list? -/
def listContainsSub (pat : List Char) : List Char → Bool
  | [] => pat.isEmpty
  | c :: rest => pat.isPrefixOf (c :: rest) || listContainsSub pat rest

/-- Substring test, modelling an unanchored regular-expression test against
a literal pattern (e.g. the test of dash-Hike-dot-gpx in getSport). -/
def strContainsSub (s pat : String) : Bool :=
  listContainsSub pat.data s.data

/-- Standard string head test, modelling name.startsWith in getSport. -/
def strStarts (s pat : String) : Bool :=
  pat.data.isPrefixOf s.data

/-- The filename heuristics of getSport (map.js lines 550-561), applied
when no declared sport is present: hike/walk patterns first, then run, then
ride, otherwise the string other. -/
def gpxNameHeur (name : String) : String :=
  if strContainsSub name "-Hike.gpx" || strContainsSub name "-Walk.gpx"
      || strStarts name "Walking" then "walking"
  else if strContainsSub name "-Run.gpx" || strStarts name "Running" then "running"
  else if strContainsSub name "-Ride.gpx" || strStarts name "Cycling" then "cycling"
  else "other"

/-- getSport (map.js lines 547-571): lowercase the declared sport; if it is
absent or empty fall back to the filename heuristics; a declared value of
biking maps to cycling and every other declared value is returned
unchanged. -/
def getSport (sport : Option String) (name : String) : String :=
  match sport.map strToLower with
  | none => gpxNameHeur name
  | some s =>
    if s = "" then gpxNameHeur name
    else if s = "biking" then "cycling"
    else s

/-- Lowercasing preserves emptiness. -/
theorem strToLower_eq_empty_iff (s : String) : strToLower s = "" ↔ s = "" := by
  constructor
  · intro h
    have hd : (strToLower s).data = [] := by rw [h]
    have : s.data.map Char.toLower = [] := hd
    rcases List.map_eq_nil_iff.mp this with h2
    cases s
    simp at h2
    simp [h2]
  · intro h
    rw [h]
    rfl

/-- C5 counterexample: the declared sport Kayaking names no member of the
closed enum, yet getSport returns the lowercased string kayaking rather
than other. -/
theorem claim_C5_counterexample :
    getSport (some "Kayaking") "file.tcx" = "kayaking"
    ∧ getSport (some "Kayaking") "file.tcx" ≠ "other" := by
  decide

/-- C5 amended: a declared sport of biking (case-insensitively) yields
cycling, and every other nonempty declared sport string is passed through
lowercased — recognized enum members map to themselves, but unrecognized
strings are returned verbatim rather than mapped to other. -/
theorem claim_C5_amended (s name : String) (h : s ≠ "") :
    getSport (some "biking") name = "cycling"
    ∧ getSport (some s) name =
        (if strToLower s = "biking" then "cycling" else strToLower s) := by
  constructor
  · simp [getSport, strToLower]
  · have hlow : ¬ strToLower s = "" := fun hc => h ((strToLower_eq_empty_iff s).mp hc)
    show (if strToLower s = "" then gpxNameHeur name
      else if strToLower s = "biking" then "cycling" else strToLower s) = _
    rw [if_neg hlow]

/-- Witness for C5 amended at a concrete input: declared Biking maps to
cycling. -/
theorem claim_C5_amended_witness : getSport (some "Biking") "n.gpx" = "cycling" := by
  have h := (claim_C5_amended "Biking" "n.gpx" (by decide)).2
  rw [h]
  decide

/-- A normalized point as built by the extractors: lat/lng as JS numbers
(possibly NaN) plus an optional timestamp. -/
structure Point where
  lat : JSNum
  lng : JSNum
  timestamp : Option JSDate
deriving DecidableEq

/-- A normalized track as pushed by the extractors (the sport is absent for
some FIT files, where it stays null). -/
structure Track where
  timestamp : Option JSDate
  points : List Point
  name : String
  sport : Option String
deriving DecidableEq

/-- The running-timestamp update shared by the GPX and TCX loops: the JS
guard requires the time field to be a truthy string, so a present, nonempty
time string replaces the running value and anything else keeps it. -/
def timeUpd (ts : Option JSDate) (time : Option String) : Option JSDate :=
  match time with
  | some s => if s = "" then ts else some ⟨s⟩
  | none => ts

/-- The attribute group of a GPX trkpt or rtept (the parser's attribute
object): latitude and longitude attribute strings, each possibly absent. -/
structure GpxPtAttr where
  lat : Option String
  lon : Option String
deriving DecidableEq

/-- A GPX trkpt: optional time child and optional attribute group. -/
structure GpxTrkPt where
  time : Option String
  attrs : Option GpxPtAttr
deriving DecidableEq

/-- A GPX trkseg: its list of trkpt elements (already normalized by the
concat-with-empty idiom of the source). -/
structure GpxTrkSeg where
  trkpt : List GpxTrkPt
deriving DecidableEq

/-- A GPX trk: optional name (repeated name tags collapse to the first, as
in the source's Array.isArray branch) and its segments. -/
structure GpxTrk where
  name : Option String
  trkseg : List GpxTrkSeg
deriving DecidableEq

/-- A GPX rtept: optional time child and optional attribute group. -/
structure GpxRtePt where
  time : Option String
  attrs : Option GpxPtAttr
deriving DecidableEq

/-- A GPX rte element. -/
structure GpxRte where
  name : Option String
  rtept : List GpxRtePt
deriving DecidableEq

/-- The parsed gpx root: trk and rte children, each absent or a list. -/
structure GpxRoot where
  trk : Option (List GpxTrk)
  rte : Option (List GpxRte)
deriving DecidableEq

/-- Does a trkpt carry an attribute group with both lat and lon present?
This is the emission guard of the trkpt loop (map.js lines 596-598): it
checks presence only, not numeric validity. -/
def gpxHasCoords (p : GpxTrkPt) : Bool :=
  match p.attrs with
  | some a => a.lat.isSome && a.lon.isSome
  | none => false

/-- The trkpt loop of extractGPXTracks over one segment: update the running
timestamp from each time child, and push a point (with the running
timestamp) for every trkpt whose lat and lon attributes are present.
Returns the final running timestamp and the points in document order. -/
def gpxSegStep (ts : Option JSDate) : List GpxTrkPt → Option JSDate × List Point
  | [] => (ts, [])
  | p :: rest =>
    let ts2 := timeUpd ts p.time
    let r := gpxSegStep ts2 rest
    match p.attrs with
    | some a =>
      if a.lat.isSome && a.lon.isSome then
        (r.1, { lat := parseFloatOpt a.lat, lng := parseFloatOpt a.lon,
                timestamp := ts2 } :: r.2)
      else r
    | none => r

/-- The trkseg loop of extractGPXTracks: the running timestamp carries over
from one segment to the next within a trk, and each segment with a
nonempty point list is pushed as its own track. -/
def gpxTrkSegs (name sport : String) : Option JSDate → List GpxTrkSeg → List Track
  | _, [] => []
  | ts, seg :: rest =>
    let r := gpxSegStep ts seg.trkpt
    let tail := gpxTrkSegs name sport r.1 rest
    if r.2.isEmpty then tail
    else { timestamp := r.1, points := r.2, name := name, sport := some sport } :: tail

/-- Processing of a single trk element: default name untitled, sport from
the filename heuristics applied to the track name, then the segment loop
with a fresh running timestamp. -/
def processGpxTrk (trk : GpxTrk) : List Track :=
  let name := trk.name.getD "untitled"
  let sport := getSport none name
  gpxTrkSegs name sport none trk.trkseg

/-- The rtept loop of extractGPXTracks: a rtept without an attribute group
makes the whole file fail with a TypeError (the source reads pt.$.lat
unguarded); otherwise a point is pushed unconditionally, with lat/lng from
parseFloat of the possibly-absent attributes and no per-point timestamp. -/
def gpxRteStep (ts : Option JSDate) : List GpxRtePt → Except JsErr (Option JSDate × List Point)
  | [] => .ok (ts, [])
  | p :: rest =>
    let ts2 := timeUpd ts p.time
    match p.attrs with
    | none => .error .typeError
    | some a =>
      match gpxRteStep ts2 rest with
      | .error e => .error e
      | .ok r => .ok (r.1, { lat := parseFloatOpt a.lat, lng := parseFloatOpt a.lon,
                             timestamp := none } :: r.2)

/-- Processing of one rte element: fixed sport other, pushed only when at
least one point was produced. -/
def processGpxRte (rte : GpxRte) : Except JsErr (List Track) :=
  let name := rte.name.getD "untitled"
  match gpxRteStep none rte.rtept with
  | .error e => .error e
  | .ok r =>
    .ok (if r.2.isEmpty then []
         else [{ timestamp := r.1, points := r.2, name := name, sport := some "other" }])

/-- The rte loop of extractGPXTracks. -/
def processGpxRtes : List GpxRte → Except JsErr (List Track)
  | [] => .ok []
  | rte :: rest =>
    match processGpxRte rte with
    | .error e => .error e
    | .ok t =>
      match processGpxRtes rest with
      | .error e => .error e
      | .ok ts => .ok (t ++ ts)

/-- extractGPXTracks (map.js lines 573-640): fail when the document has
neither trk nor rte; otherwise collect the tracks of every trk element,
then of every rte element. -/
def extractGPXTracks (gpx : GpxRoot) : Except JsErr (List Track) :=
  if gpx.trk.isNone ∧ gpx.rte.isNone then .error (.error "Unexpected gpx file format.")
  else
    match processGpxRtes (gpx.rte.getD []) with
    | .error e => .error e
    | .ok rteTracks => .ok ((gpx.trk.getD []).flatMap processGpxTrk ++ rteTracks)

/-- A TCX Position element: latitude/longitude degree strings. -/
structure TcxPosition where
  LatitudeDegrees : Option String
  LongitudeDegrees : Option String
deriving DecidableEq

/-- A TCX Trackpoint: optional Time child and optional Position child. -/
structure TcxTrackpoint where
  Time : Option String
  Position : Option TcxPosition
deriving DecidableEq

/-- A TCX Track element: its Trackpoint children. -/
structure TcxTrack where
  Trackpoint : List TcxTrackpoint
deriving DecidableEq

/-- A TCX Lap: its Track children, absent when the lap is malformed. -/
structure TcxLap where
  Track : Option (List TcxTrack)
deriving DecidableEq

/-- A TCX training Plan element. -/
structure TcxPlan where
  Name : Option String
deriving DecidableEq

/-- A TCX Training element. -/
structure TcxTraining where
  Plan : Option TcxPlan
deriving DecidableEq

/-- The attribute group of a TCX Activity (its Sport attribute). -/
structure TcxActAttr where
  Sport : Option String
deriving DecidableEq

/-- A TCX Activity: attribute group, optional Training element, laps. -/
structure TcxActivity where
  attrs : Option TcxActAttr
  Training : Option TcxTraining
  Lap : List TcxLap
deriving DecidableEq

/-- The Activities element of a TCX document. -/
structure TcxActivities where
  Activity : List TcxActivity
deriving DecidableEq

/-- The parsed TrainingCenterDatabase root. -/
structure TcxRoot where
  Activities : Option TcxActivities
deriving DecidableEq

/-- Point built from one TCX trackpoint: parseFloat of the position degree
strings with the running timestamp.  The none branch is unreachable, since
the caller filters on Position presence first (a direct JS access would
throw). -/
def tcxPointOf (ts : Option JSDate) (p : TcxTrackpoint) : Point :=
  match p.Position with
  | some pos => { lat := parseFloatOpt pos.LatitudeDegrees,
                  lng := parseFloatOpt pos.LongitudeDegrees, timestamp := ts }
  | none => { lat := JSNum.nan, lng := JSNum.nan, timestamp := ts }

/-- The trackpoint loop of extractTCXTracks, run on the Position-filtered
trackpoint list: every filtered trackpoint produces a point, and the
running timestamp is updated from each truthy Time string. -/
def tcxPtsStep (ts : Option JSDate) : List TcxTrackpoint → Option JSDate × List Point
  | [] => (ts, [])
  | p :: rest =>
    let ts2 := timeUpd ts p.Time
    let r := tcxPtsStep ts2 rest
    (r.1, tcxPointOf ts2 p :: r.2)

/-- Processing of a single TCX Track element: filter trackpoints carrying a
Position, run the point loop with a fresh running timestamp, and push a
track only when points were produced. -/
def tcxProcessTrack (name sport : String) (tr : TcxTrack) : List Track :=
  let fp := tr.Trackpoint.filter (fun p => p.Position.isSome)
  let r := tcxPtsStep none fp
  if r.2.isEmpty then []
  else [{ timestamp := r.1, points := r.2, name := name, sport := some sport }]

/-- Lap processing: a lap without a Track child is skipped. -/
def tcxProcessLap (name sport : String) (lap : TcxLap) : List Track :=
  match lap.Track with
  | none => []
  | some trs => trs.flatMap (tcxProcessTrack name sport)

/-- The declared-sport resolution of extractTCXTracks: the Sport attribute
is read off the activity's attribute group (a missing group throws); a
declared Other falls back to the optional chain through Training to the
Plan Name, where a Training element without a Plan throws. -/
def tcxActivitySport (act : TcxActivity) : Except JsErr (Option String) :=
  match act.attrs with
  | none => .error .typeError
  | some a =>
    if a.Sport = some "Other" then
      match act.Training with
      | none => .ok none
      | some tr =>
        match tr.Plan with
        | none => .error .typeError
        | some plan => .ok plan.Name
    else .ok a.Sport

/-- Processing of one TCX Activity: resolve the sport through getSport,
then process every lap. -/
def tcxProcessActivity (name : String) (act : TcxActivity) : Except JsErr (List Track) :=
  match tcxActivitySport act with
  | .error e => .error e
  | .ok sp => .ok (act.Lap.flatMap (tcxProcessLap name (getSport sp name)))

/-- The activity loop of extractTCXTracks. -/
def tcxProcessActivities (name : String) : List TcxActivity → Except JsErr (List Track)
  | [] => .ok []
  | act :: rest =>
    match tcxProcessActivity name act with
    | .error e => .error e
    | .ok t =>
      match tcxProcessActivities name rest with
      | .error e => .error e
      | .ok ts => .ok (t ++ ts)

/-- extractTCXTracks (map.js lines 642-692): fail when the document has no
Activities element, otherwise process every Activity. -/
def extractTCXTracks (tcx : TcxRoot) (name : String) : Except JsErr (List Track) :=
  match tcx.Activities with
  | none => .error (.error "Unexpected tcx file format.")
  | some acts => tcxProcessActivities name acts.Activity

/-- One decoded FIT record: the claims only involve its two position
fields (numbers, absent when the record carries no position) and its
timestamp (a decoder-produced date). -/
structure FITRecord where
  position_lat : Option ℚ
  position_long : Option ℚ
  timestamp : Option JSDate
deriving DecidableEq

/-- The decoder output consumed by extractFITTracks: the record list plus
the file-level metadata the source reads, namely the declared sport of the
first sports entry and the manufacturer of the first file id entry (the
decoder always emits a file id entry for a decodable file). -/
structure FITResult where
  records : List FITRecord
  sport : Option String
  manufacturer : Option String
deriving DecidableEq

/-- JavaScript truthiness of a possibly-absent number: 0 and `undefined`
are falsy. -/
def truthyNum (o : Option ℚ) : Bool :=
  match o with
  | some q => q != 0
  | none => false

/-- Point built from one position-carrying FIT record (the none branches
are unreachable behind the truthiness guard). -/
def fitPointOf (r : FITRecord) : Point :=
  { lat := match r.position_lat with | some q => JSNum.num q | none => JSNum.nan,
    lng := match r.position_long with | some q => JSNum.num q | none => JSNum.nan,
    timestamp := r.timestamp }

/-- The record loop of extractFITTracks: push a point for every record
whose two position fields are truthy, and update the running track
timestamp from every record carrying a timestamp.  Returns the points and
the final running timestamp. -/
def fitLoop (ts : Option JSDate) : List FITRecord → List Point × Option JSDate
  | [] => ([], ts)
  | r :: rest =>
    let ts2 := match r.timestamp with | some d => some d | none => ts
    let res := fitLoop ts2 rest
    (if truthyNum r.position_lat && truthyNum r.position_long
     then fitPointOf r :: res.1 else res.1, res.2)

/-- extractFITTracks (map.js lines 694-720): fail when the record list is
empty; resolve the sport (empty declared sport is falsy, and the zwift
manufacturer defaults a missing sport to cycling); return a single track
when any record carried a truthy position pair, else no tracks. -/
def extractFITTracks (fit : FITResult) (name : String) : Except JsErr (List Track) :=
  if fit.records.isEmpty then .error (.error "Unexpected FIT file format.")
  else
    let sport0 : Option String :=
      match fit.sport with
      | some s => if s = "" then none else some s
      | none => none
    let sport := if sport0.isNone ∧ fit.manufacturer = some "zwift"
                 then some "cycling" else sport0
    let r := fitLoop none fit.records
    .ok (if r.1.isEmpty then []
         else [{ timestamp := r.2, points := r.1, name := name, sport := sport }])

/-- One JSON recorded-route sample. -/
structure JsonRoutePoint where
  latitude : ℚ
  longitude : ℚ
  dateTime : String
deriving DecidableEq

/-- The samples object of a JSON exercise: the recordedRoute array may be
absent. -/
structure JsonSamples where
  recordedRoute : Option (List JsonRoutePoint)
deriving DecidableEq

/-- A JSON exercise entry. -/
structure JsonExercise where
  sport : Option String
  startTime : String
  samples : JsonSamples
deriving DecidableEq

/-- The parsed JSON document (the source iterates its exercises field). -/
structure JsonRoot where
  exercises : List JsonExercise
deriving DecidableEq

/-- Point built from one JSON route sample. -/
def jsonPointOf (p : JsonRoutePoint) : Point :=
  { lat := JSNum.num p.latitude, lng := JSNum.num p.longitude,
    timestamp := some ⟨p.dateTime⟩ }

/-- extractJSONTracks (map.js lines 722-742): skip exercises without a
recordedRoute; otherwise map the route samples to points and push a track
when points are nonempty. -/
def extractJSONTracks (json : JsonRoot) (name : String) : List Track :=
  json.exercises.flatMap (fun ex =>
    match ex.samples.recordedRoute with
    | none => []
    | some route =>
      let points := route.map jsonPointOf
      if points.isEmpty then []
      else [{ timestamp := some (⟨ex.startTime⟩ : JSDate), points := points,
              name := name, sport := some (getSport ex.sport name) }])

/-- Split a character list on a separator character, with JS
String.prototype.split semantics. -/
def splitOnChar (c : Char) : List Char → List (List Char)
  | [] => [[]]
  | x :: rest =>
    let r := splitOnChar c rest
    if x = c then [] :: r
    else
      match r with
      | [] => [[x]]
      | h :: t => (x :: h) :: t

/-- The format dispatch key of extractTracks (map.js line 745):
lowercased last dot-separated component of the filename. -/
def fileFormat (name : String) : String :=
  strToLower ⟨(splitOnChar '.' name.data).getLastD []⟩

/-- The parse result of the shared XML parser: at most one of the two known
roots is consumed; both may be absent. -/
structure XmlResult where
  gpx : Option GpxRoot
  TrainingCenterDatabase : Option TcxRoot
deriving DecidableEq

/-- The gpx/tcx arm of extractTracks (map.js lines 744-758), modelled over
the already-parsed XML document: a present gpx root goes to the GPX
extractor, else a present TrainingCenterDatabase root goes to the TCX
extractor, else the promise is rejected with the Invalid file type error.
The fit and json arms operate on differently decoded inputs and are
modelled by extractFITTracks and extractJSONTracks directly; the default
arm throws the unsupported-format template string. -/
def extractTracksEntry (name : String) (xml : XmlResult) : Except JsErr (List Track) :=
  if fileFormat name = "gpx" ∨ fileFormat name = "tcx" then
    match xml.gpx with
    | some g => extractGPXTracks g
    | none =>
      match xml.TrainingCenterDatabase with
      | some t => extractTCXTracks t name
      | none => .error (.error "Invalid file type.")
  else .error (.thrown ("Unsupported file format: " ++ fileFormat name))

/-- A point as consumed by the animation loop: coordinates plus the
timestamp coerced to a number of milliseconds (absent for points without a
timestamp, where JS comparisons involving it are all false). -/
structure AnimPoint where
  lat : ℚ
  lng : ℚ
  timestamp : Option ℚ
deriving DecidableEq

/-- A track as seen by the animation loop: its full point sequence. -/
structure AnimTrack where
  points : List AnimPoint
deriving DecidableEq

/-- The render state the animation mutates for one track: the transient
circle marker position and the latlngs of the drawn polyline. -/
structure TrackRenderState where
  marker : Option (ℚ × ℚ)
  line : List (ℚ × ℚ)
deriving DecidableEq

/-- Fallback point for the source's unguarded indexing of points[0] and
points[length - 1] (which would throw on an empty list; parser-produced
tracks are never empty). -/
def animDefaultPt : AnimPoint := ⟨0, 0, none⟩

/-- Difference of two dates as a JS number: NaN when either is undefined. -/
def jsSubTimes (a b : Option ℚ) : JSNum :=
  match a, b with
  | some x, some y => JSNum.num (x - y)
  | _, _ => JSNum.nan

/-- Math.max of two JS numbers: NaN propagates, negative infinity is the
identity. -/
def jsMax2 (a b : JSNum) : JSNum :=
  match a, b with
  | JSNum.nan, _ => JSNum.nan
  | _, JSNum.nan => JSNum.nan
  | JSNum.ninf, y => y
  | x, JSNum.ninf => x
  | JSNum.num x, JSNum.num y => JSNum.num (max x y)

/-- Math.max over a spread list: seeded with negative infinity. -/
def jsMaxList (l : List JSNum) : JSNum :=
  l.foldl jsMax2 JSNum.ninf

/-- A track's own elapsed duration (map.js line 368): last point timestamp
minus first point timestamp. -/
def trackDuration (tr : AnimTrack) : JSNum :=
  jsSubTimes (tr.points.getLastD animDefaultPt).timestamp
    (tr.points.headD animDefaultPt).timestamp

/-- The effective query time of one track for a frame (map.js line 388):
the shared step time plus the numeric coercion of the track's first point
timestamp (NaN when that timestamp is undefined). -/
def trackStepTimeOf (stepTime : ℚ) (tr : AnimTrack) : JSNum :=
  match (tr.points.headD animDefaultPt).timestamp with
  | some t0 => JSNum.num (stepTime + t0)
  | none => JSNum.nan

/-- The comparison pt.timestamp gt trackStepTime: false whenever either
side is undefined or NaN. -/
def jsGtNum (ts : Option ℚ) (q : JSNum) : Bool :=
  match ts, q with
  | some v, JSNum.num x => decide (x < v)
  | _, _ => false

/-- Comparison stepTime lt maxBound (map.js line 413): false when the
bound is NaN or negative infinity. -/
def jsLtQ (s : ℚ) (m : JSNum) : Bool :=
  match m with
  | JSNum.num q => decide (s < q)
  | _ => false

/-- Per-frame point resolution for one track (map.js line 389): the first
point in document order whose timestamp is strictly after the track's
effective query time, if any. -/
def resolvePoint (tr : AnimTrack) (stepTime : ℚ) : Option AnimPoint :=
  tr.points.find? (fun pt => jsGtNum pt.timestamp (trackStepTimeOf stepTime tr))

/-- The per-track frame effect (map.js lines 391-409): when a point
resolves and a marker exists, move the marker there and append the point to
the line; when a point resolves and no marker exists yet, create the marker
there and clear the line; when no point resolves, remove the marker and
leave the line as built. -/
def stepTrack (stepTime : ℚ) (p : AnimTrack × TrackRenderState) :
    AnimTrack × TrackRenderState :=
  match resolvePoint p.1 stepTime with
  | some pt =>
    match p.2.marker with
    | some _ => (p.1, { marker := some (pt.lat, pt.lng), line := p.2.line ++ [(pt.lat, pt.lng)] })
    | none => (p.1, { marker := some (pt.lat, pt.lng), line := [] })
  | none => (p.1, { marker := none, line := p.2.line })

/-- The frame loop of animateTracks (map.js lines 374-422) driven by a list
of host frame timestamps: each frame computes the step time (minBound is 0,
elapsed real time scaled by the playback rate), resolves every visible
track unless the host timestamp did not change, and either schedules the
next frame (step time below the bound) or ends the run, returning true for
a completed run.  No restoration happens on completion — only the play
button state is reset. -/
def runFrames (rate : ℚ) (maxB : JSNum) (start : ℚ) :
    Option ℚ → List (AnimTrack × TrackRenderState) → List ℚ →
    List (AnimTrack × TrackRenderState) × Bool
  | _, sts, [] => (sts, false)
  | prev, sts, t :: rest =>
    let stepTime := 0 + (t - start) * rate
    let sts2 := if prev = some t then sts else sts.map (stepTrack stepTime)
    if jsLtQ stepTime maxB then runFrames rate maxB start (some t) sts2 rest
    else (sts2, true)

/-- The full line drawn for a track outside animation: the latlngs of all
of its points. -/
def lineOfPoints (pts : List AnimPoint) : List (ℚ × ℚ) :=
  pts.map (fun p => (p.lat, p.lng))

/-- animateTracks (map.js lines 360-425) for one run: no work when there
are no visible tracks and no image markers; otherwise the upper bound is
the maximum of the visible tracks' durations and the frame loop runs with
the first host timestamp as the start. -/
def animateTracksRun (visibleTracks : List (AnimTrack × TrackRenderState))
    (imageMarkerCount : Nat) (rate : ℚ) (frames : List ℚ) :
    List (AnimTrack × TrackRenderState) × Bool :=
  if visibleTracks.isEmpty ∧ imageMarkerCount = 0 then (visibleTracks, false)
  else
    let maxB := jsMaxList (visibleTracks.map (fun p => trackDuration p.1))
    match frames with
    | [] => (visibleTracks, false)
    | t0 :: _ => runFrames rate maxB t0 none visibleTracks frames

/-- stopAnimation (map.js lines 427-436): cancel the scheduled frame, then
for every track remove the marker and reset the line to the track's full
point sequence. -/
def stopAnimation (tracks : List (AnimTrack × TrackRenderState)) :
    List (AnimTrack × TrackRenderState) :=
  tracks.map (fun p => (p.1, { marker := none, line := lineOfPoints p.1.points }))

/-- The millisecond value of an animation point timestamp, defaulted for
the undefined case (only used under an all-timestamps-present
hypothesis). -/
def animTs (p : AnimPoint) : ℚ :=
  p.timestamp.getD 0

/-- On a fully timestamped, sorted point list, the first point strictly
after the query time sits exactly at the insertion index, i.e. at the count
of points with timestamp at most the query time. -/
theorem find_gt_of_sorted (q : ℚ) :
    ∀ (pts : List AnimPoint),
    (∀ p ∈ pts, p.timestamp.isSome) →
    List.Pairwise (fun a b => animTs a ≤ animTs b) pts →
    pts.find? (fun pt => jsGtNum pt.timestamp (JSNum.num q)) =
      pts[(pts.countP (fun p => decide (animTs p ≤ q)))]? := by
  intro pts
  induction pts with
  | nil =>
      intro _ _
      simp
  | cons p rest ih =>
      intro hall hp
      have hpair := (List.pairwise_cons.mp hp).1
      have hptail := (List.pairwise_cons.mp hp).2
      rcases Option.isSome_iff_exists.mp (hall p (List.mem_cons_self p rest)) with ⟨v, hv⟩
      have hts : animTs p = v := by simp [animTs, hv]
      by_cases hqv : q < v
      · rw [List.find?_cons_of_pos _ (by rw [hv]; simpa [jsGtNum] using hqv)]
        have h0 : (p :: rest).countP (fun p => decide (animTs p ≤ q)) = 0 := by
          rw [List.countP_eq_zero]
          intro b hb
          rcases List.mem_cons.mp hb with rfl | hbr
          · simp only [decide_eq_true_eq, hts]
            intro hc
            linarith
          · have hvb : v ≤ animTs b := by
              have := hpair b hbr
              rw [hts] at this
              exact this
            simp only [decide_eq_true_eq]
            intro hc
            linarith
        rw [h0]
        simp
      · rw [List.find?_cons_of_neg _ (by rw [hv]; simpa [jsGtNum] using hqv)]
        rw [List.countP_cons_of_pos _ _ (by simp only [decide_eq_true_eq, hts]; linarith)]
        rw [List.getElem?_cons_succ]
        exact ih (fun b hb => hall b (List.mem_cons_of_mem p hb)) hptail

/-- C1 amended: in the single implemented animation path, for a visible
track with sorted, fully timestamped points and insertion index i (the
count of points whose timestamp is at most the effective query time), the
displayed point is points at index i — the first point strictly after the
query time — whenever i is below the point count; in particular at i = 0 a
marker is rendered at the first point rather than suppressed.  When i
reaches the point count, the frame removes the track's marker and leaves
the line as built so far (not at full resolution). -/
theorem claim_C1_amended (pts : List AnimPoint) (stepTime t0 : ℚ)
    (hhead : (pts.headD animDefaultPt).timestamp = some t0)
    (hall : ∀ p ∈ pts, p.timestamp.isSome)
    (hsorted : List.Pairwise (fun a b => animTs a ≤ animTs b) pts) :
    resolvePoint ⟨pts⟩ stepTime =
      pts[(pts.countP (fun p => decide (animTs p ≤ stepTime + t0)))]?
    ∧ (∀ rs : TrackRenderState,
        pts.countP (fun p => decide (animTs p ≤ stepTime + t0)) < pts.length →
        (stepTrack stepTime (⟨pts⟩, rs)).2.marker =
          (pts[(pts.countP (fun p => decide (animTs p ≤ stepTime + t0)))]?).map
            (fun p => (p.lat, p.lng)))
    ∧ (∀ rs : TrackRenderState,
        pts.length ≤ pts.countP (fun p => decide (animTs p ≤ stepTime + t0)) →
        (stepTrack stepTime (⟨pts⟩, rs)).2 =
          { marker := none, line := rs.line }) := by
  have hq : trackStepTimeOf stepTime ⟨pts⟩ = JSNum.num (stepTime + t0) := by
    show (match (pts.headD animDefaultPt).timestamp with
      | some t0 => JSNum.num (stepTime + t0)
      | none => JSNum.nan) = JSNum.num (stepTime + t0)
    rw [hhead]
  have h1 : resolvePoint ⟨pts⟩ stepTime =
      pts[(pts.countP (fun p => decide (animTs p ≤ stepTime + t0)))]? := by
    show (⟨pts⟩ : AnimTrack).points.find?
      (fun pt => jsGtNum pt.timestamp (trackStepTimeOf stepTime ⟨pts⟩)) = _
    simp only [hq]
    exact find_gt_of_sorted (stepTime + t0) pts hall hsorted
  refine ⟨h1, ?_, ?_⟩
  · intro rs hlt
    have hpt : pts[(pts.countP (fun p => decide (animTs p ≤ stepTime + t0)))]? =
        some pts[(pts.countP (fun p => decide (animTs p ≤ stepTime + t0)))] :=
      List.getElem?_eq_getElem hlt
    have h2 : resolvePoint ⟨pts⟩ stepTime =
        some pts[(pts.countP (fun p => decide (animTs p ≤ stepTime + t0)))] :=
      h1.trans hpt
    rw [hpt]
    cases hm : rs.marker with
    | none => simp [stepTrack, h2, hm]
    | some m => simp [stepTrack, h2, hm]
  · intro rs hge
    have hnone : pts[(pts.countP (fun p => decide (animTs p ≤ stepTime + t0)))]? = none :=
      List.getElem?_eq_none hge
    have h2 : resolvePoint ⟨pts⟩ stepTime = none := h1.trans hnone
    simp [stepTrack, h2]

/-- Witness for C1 amended: points at 10ms and 20ms, step time 5 against a
first-point offset of 10 gives the effective query time 15, insertion index
1, and the displayed point is the second point (timestamp 20, after the
query time). -/
theorem claim_C1_amended_witness :
    resolvePoint ⟨[⟨1, 1, some 10⟩, ⟨2, 2, some 20⟩]⟩ 5 = some ⟨2, 2, some 20⟩ := by
  have h := (claim_C1_amended [⟨1, 1, some 10⟩, ⟨2, 2, some 20⟩] 5 10
    (by decide) (by decide) (by decide)).1
  rw [h]
  norm_num [animTs, List.countP, List.countP.go]

/-- C1 counterexample: with points at 10/20/30ms and effective query time
15 the insertion index is 1 (strictly between 0 and the length), yet the
code displays the point at index 1 (timestamp 20, after the query time)
rather than index 0; and at insertion index 0 (query time before every
point) the frame renders a marker at the first point instead of rendering
none. -/
theorem claim_C1_counterexample :
    resolvePoint ⟨[⟨1, 1, some 10⟩, ⟨2, 2, some 20⟩, ⟨3, 3, some 30⟩]⟩ 5
        = some ⟨2, 2, some 20⟩
    ∧ some (⟨2, 2, some 20⟩ : AnimPoint) ≠ some (⟨1, 1, some 10⟩ : AnimPoint)
    ∧ (stepTrack (-100) (⟨[⟨1, 1, some 10⟩, ⟨2, 2, some 20⟩, ⟨3, 3, some 30⟩]⟩,
        ⟨none, []⟩)).2.marker = some (1, 1) := by
  refine ⟨?_, by decide, ?_⟩
  · norm_num [resolvePoint, trackStepTimeOf, animDefaultPt, jsGtNum, List.find?]
  · norm_num [stepTrack, resolvePoint, trackStepTimeOf, animDefaultPt, jsGtNum, List.find?]

/-- C3: a run that ends by reaching its upper bound performs no
restoration: the concrete two-point track below completes with an empty
line (the partial line built during playback), which differs from its full
point sequence — only an explicit stopAnimation resets every line to the
full sequence and removes the markers. -/
theorem claim_C3_completed_not_restored :
    animateTracksRun [(⟨[⟨1, 1, some 0⟩, ⟨2, 2, some 10⟩]⟩, ⟨none, [(1, 1), (2, 2)]⟩)]
        0 1 [0, 20]
      = ([(⟨[⟨1, 1, some 0⟩, ⟨2, 2, some 10⟩]⟩, ⟨none, []⟩)], true)
    ∧ ([] : List (ℚ × ℚ)) ≠ lineOfPoints [⟨1, 1, some 0⟩, ⟨2, 2, some 10⟩]
    ∧ stopAnimation [(⟨[⟨1, 1, some 0⟩, ⟨2, 2, some 10⟩]⟩, ⟨none, []⟩)]
      = [(⟨[⟨1, 1, some 0⟩, ⟨2, 2, some 10⟩]⟩, ⟨none, [(1, 1), (2, 2)]⟩)] := by
  refine ⟨?_, by decide, by decide⟩
  norm_num [animateTracksRun, runFrames, stepTrack, resolvePoint, trackStepTimeOf,
    trackDuration, animDefaultPt, jsMaxList, jsMax2, jsSubTimes, jsLtQ, jsGtNum,
    List.find?]
  rw [if_neg (show ¬ (none : Option ℚ) = some 0 by simp)]
  norm_num [stepTrack, resolvePoint, trackStepTimeOf, animDefaultPt, jsGtNum,
    List.find?]

/-- C4 counterexample: a GPX track whose two points carry the time strings
2020-01-01 and 2021-01-01 (in that order) yields a track-level timestamp of
2021-01-01 — the last observed timestamp, not the first. -/
theorem claim_C4_counterexample :
    (extractGPXTracks ⟨some [⟨none, [⟨[⟨some "2020-01-01T00:00:00Z",
          some ⟨some "1", some "2"⟩⟩,
        ⟨some "2021-01-01T00:00:00Z", some ⟨some "3", some "4"⟩⟩]⟩]⟩], none⟩).toOption.map
      (List.map Track.timestamp) = some [some ⟨"2021-01-01T00:00:00Z"⟩]
    ∧ (⟨"2021-01-01T00:00:00Z"⟩ : JSDate) ≠ ⟨"2020-01-01T00:00:00Z"⟩ := by
  decide

/-- The truthy time strings of a GPX trkpt list, in document order. -/
def gpxTimeStrs (pts : List GpxTrkPt) : List String :=
  pts.filterMap (fun p => match p.time with
    | some s => if s = "" then none else some s
    | none => none)

/-- The truthy Time strings of a TCX trackpoint list, in document order. -/
def tcxTimeStrs (pts : List TcxTrackpoint) : List String :=
  pts.filterMap (fun p => match p.Time with
    | some s => if s = "" then none else some s
    | none => none)

/-- The last observed timestamp after scanning a list of truthy time
strings, starting from a carried-in value. -/
def lastObservedTime (ts0 : Option JSDate) (strs : List String) : Option JSDate :=
  match strs.getLast? with
  | some s => some ⟨s⟩
  | none => ts0

/-- Scanning one more time string first just replaces the carried-in
value. -/
theorem lastObservedTime_cons (ts0 : Option JSDate) (s : String) (l : List String) :
    lastObservedTime ts0 (s :: l) = lastObservedTime (some ⟨s⟩) l := by
  cases l with
  | nil => rfl
  | cons c cs =>
    show (match (s :: c :: cs).getLast? with
      | some s => some (⟨s⟩ : JSDate)
      | none => ts0) = _
    rw [List.getLast?_cons_cons]
    rfl

/-- The final running timestamp of the trkpt loop is the last truthy time
string observed, falling back to the carried-in value. -/
theorem gpxSegStep_fst (pts : List GpxTrkPt) : ∀ ts : Option JSDate,
    (gpxSegStep ts pts).1 = lastObservedTime ts (gpxTimeStrs pts) := by
  induction pts with
  | nil => intro ts; rfl
  | cons p rest ih =>
    intro ts
    have hfst : (gpxSegStep ts (p :: rest)).1 = (gpxSegStep (timeUpd ts p.time) rest).1 := by
      rw [gpxSegStep]
      cases p.attrs with
      | none => rfl
      | some a =>
        cases hb : (a.lat.isSome && a.lon.isSome) with
        | true => simp [hb]
        | false => simp [hb]
    rw [hfst, ih (timeUpd ts p.time)]
    cases hpt : p.time with
    | none => simp [gpxTimeStrs, timeUpd, hpt]
    | some s =>
      by_cases hs : s = ""
      · simp [gpxTimeStrs, timeUpd, hpt, hs]
      · simp only [gpxTimeStrs, timeUpd, hpt, List.filterMap_cons, if_neg hs]
        exact (lastObservedTime_cons ts s _).symm

/-- The trkpt loop emits a point exactly for the coordinate-carrying
trkpts, so its output is empty exactly when no trkpt carries both
coordinates. -/
theorem gpxSegStep_snd_isEmpty (pts : List GpxTrkPt) : ∀ ts : Option JSDate,
    (gpxSegStep ts pts).2.isEmpty = !(pts.any gpxHasCoords) := by
  induction pts with
  | nil => intro ts; rfl
  | cons p rest ih =>
    intro ts
    rw [gpxSegStep]
    cases hattr : p.attrs with
    | none =>
      simp only [List.any_cons, gpxHasCoords, hattr, Bool.false_or]
      exact ih (timeUpd ts p.time)
    | some a =>
      cases hb : (a.lat.isSome && a.lon.isSome) with
      | true => simp [hb, gpxHasCoords, hattr]
      | false =>
        simp only [hb, if_neg (by simp : ¬ (false = true)), List.any_cons,
          gpxHasCoords, hattr, Bool.false_or]
        exact ih (timeUpd ts p.time)

/-- The sequence of track-level timestamps the segment loop should produce
according to the last-observed rule: each coordinate-carrying segment
contributes the last truthy time string seen up to and including it
(carrying over across earlier segments of the same trk). -/
def specGpxTimestamps (ts0 : Option JSDate) : List GpxTrkSeg → List (Option JSDate)
  | [] => []
  | seg :: rest =>
    (if seg.trkpt.any gpxHasCoords
     then [lastObservedTime ts0 (gpxTimeStrs seg.trkpt)] else [])
      ++ specGpxTimestamps (lastObservedTime ts0 (gpxTimeStrs seg.trkpt)) rest

/-- The timestamps of the tracks produced by the segment loop follow the
last-observed rule. -/
theorem gpxTrkSegs_timestamps (name sport : String) : ∀ (segs : List GpxTrkSeg)
    (ts0 : Option JSDate),
    (gpxTrkSegs name sport ts0 segs).map Track.timestamp = specGpxTimestamps ts0 segs := by
  intro segs
  induction segs with
  | nil => intro ts0; rfl
  | cons seg rest ih =>
    intro ts0
    rw [gpxTrkSegs, specGpxTimestamps]
    cases hany : seg.trkpt.any gpxHasCoords with
    | false =>
      have he : (gpxSegStep ts0 seg.trkpt).2.isEmpty = true := by
        rw [gpxSegStep_snd_isEmpty, hany]
        rfl
      simp [he, gpxSegStep_fst, ih]
    | true =>
      have he : (gpxSegStep ts0 seg.trkpt).2.isEmpty = false := by
        rw [gpxSegStep_snd_isEmpty, hany]
        rfl
      simp [he, gpxSegStep_fst, ih]

/-- The final running timestamp of the TCX trackpoint loop is the last
truthy Time string observed. -/
theorem tcxPtsStep_fst (pts : List TcxTrackpoint) : ∀ ts : Option JSDate,
    (tcxPtsStep ts pts).1 = lastObservedTime ts (tcxTimeStrs pts) := by
  induction pts with
  | nil => intro ts; rfl
  | cons p rest ih =>
    intro ts
    have hfst : (tcxPtsStep ts (p :: rest)).1 = (tcxPtsStep (timeUpd ts p.Time) rest).1 := by
      rw [tcxPtsStep]
    rw [hfst, ih (timeUpd ts p.Time)]
    cases hpt : p.Time with
    | none => simp [tcxTimeStrs, timeUpd, hpt]
    | some s =>
      by_cases hs : s = ""
      · simp [tcxTimeStrs, timeUpd, hpt, hs]
      · simp only [tcxTimeStrs, timeUpd, hpt, List.filterMap_cons, if_neg hs]
        exact (lastObservedTime_cons ts s _).symm

/-- The TCX trackpoint loop emits one point per (filtered) trackpoint. -/
theorem tcxPtsStep_snd_length (pts : List TcxTrackpoint) : ∀ ts : Option JSDate,
    (tcxPtsStep ts pts).2.length = pts.length := by
  induction pts with
  | nil => intro ts; rfl
  | cons p rest ih =>
    intro ts
    rw [tcxPtsStep]
    simp only [List.length_cons]
    rw [ih (timeUpd ts p.Time)]

/-- C4 amended: the track-level timestamp is the LAST truthy time string
observed during the scan at the moment the track is pushed, not the first:
for GPX, the running value carries over across earlier segments of the same
trk and each emitted segment-track gets the last time string seen up to and
including its segment; for TCX, each Track element gets the last Time
string among its Position-carrying trackpoints.  A track with zero observed
time strings carries none (for GPX, the value inherited from earlier
segments, which is none for a first segment). -/
theorem claim_C4_amended :
    (∀ (name sport : String) (ts0 : Option JSDate) (segs : List GpxTrkSeg),
      (gpxTrkSegs name sport ts0 segs).map Track.timestamp = specGpxTimestamps ts0 segs)
    ∧ (∀ (name sport : String) (tr : TcxTrack),
      (tcxProcessTrack name sport tr).map Track.timestamp =
        (if (tr.Trackpoint.filter (fun p => p.Position.isSome)).isEmpty then []
         else [lastObservedTime none
           (tcxTimeStrs (tr.Trackpoint.filter (fun p => p.Position.isSome)))])) := by
  constructor
  · intro name sport ts0 segs
    exact gpxTrkSegs_timestamps name sport segs ts0
  · intro name sport tr
    rw [tcxProcessTrack]
    have hemp : ∀ l : List TcxTrackpoint, (tcxPtsStep none l).2.isEmpty = l.isEmpty := by
      intro l
      cases l with
      | nil => rfl
      | cons p r =>
        rw [tcxPtsStep]
        rfl
    cases hf : (tr.Trackpoint.filter (fun p => p.Position.isSome)).isEmpty with
    | true => simp [hemp, hf]
    | false => simp [hemp, hf, tcxPtsStep_fst]

/-- C6 counterexample: a trkpt whose lat attribute is present but
non-numeric is not skipped — the point is stored with a NaN latitude. -/
theorem claim_C6_counterexample :
    parseFloat "abc" = JSNum.nan
    ∧ (extractGPXTracks ⟨some [⟨none, [⟨[⟨none, some ⟨some "abc", some "1"⟩⟩]⟩]⟩],
        none⟩).toOption.map (List.map (fun t => t.points.map Point.lat))
      = some [[JSNum.nan]] := by
  decide

/-- The lat attribute string of a trkpt, undefined when the attribute group
is missing. -/
def gpxAttrLat (p : GpxTrkPt) : Option String :=
  match p.attrs with
  | some a => a.lat
  | none => none

/-- The lon attribute string of a trkpt, undefined when the attribute group
is missing. -/
def gpxAttrLon (p : GpxTrkPt) : Option String :=
  match p.attrs with
  | some a => a.lon
  | none => none

/-- C6 amended: a trkpt is skipped exactly when its lat or lon attribute is
missing — presence is the only check, and the stored coordinates are the
raw parseFloat results of the attribute strings, so a present non-numeric
attribute is stored as NaN; and no rtept is ever skipped (one point per
rtept whenever the route processes without throwing). -/
theorem claim_C6_amended :
    (∀ (ts : Option JSDate) (pts : List GpxTrkPt),
      ((gpxSegStep ts pts).2).map (fun p => (p.lat, p.lng)) =
        (pts.filter gpxHasCoords).map
          (fun p => (parseFloatOpt (gpxAttrLat p), parseFloatOpt (gpxAttrLon p))))
    ∧ (∀ (ts : Option JSDate) (rpts : List GpxRtePt) (r : Option JSDate × List Point),
        gpxRteStep ts rpts = .ok r → r.2.length = rpts.length) := by
  constructor
  · intro ts pts
    induction pts generalizing ts with
    | nil => rfl
    | cons p rest ih =>
      rw [gpxSegStep]
      cases hattr : p.attrs with
      | none =>
        have hcoords : gpxHasCoords p = false := by
          simp [gpxHasCoords, hattr]
        rw [List.filter_cons_of_neg (by simp [hcoords])]
        exact ih (timeUpd ts p.time)
      | some a =>
        cases hb : (a.lat.isSome && a.lon.isSome) with
        | false =>
          have hcoords : gpxHasCoords p = false := by
            simp [gpxHasCoords, hattr, hb]
          rw [List.filter_cons_of_neg (by simp [hcoords])]
          simp [hb, ih (timeUpd ts p.time)]
        | true =>
          have hcoords : gpxHasCoords p = true := by
            simp only [gpxHasCoords, hattr]
            exact hb
          rw [List.filter_cons_of_pos (by simp [hcoords])]
          simp [hb, gpxAttrLat, gpxAttrLon, hattr, ih (timeUpd ts p.time)]
  · intro ts rpts
    induction rpts generalizing ts with
    | nil =>
      intro r hr
      rw [gpxRteStep] at hr
      cases hr
      rfl
    | cons p rest ih =>
      intro r hr
      rw [gpxRteStep] at hr
      cases hattr : p.attrs with
      | none => rw [hattr] at hr; cases hr
      | some a =>
        rw [hattr] at hr
        cases hrec : gpxRteStep (timeUpd ts p.time) rest with
        | error e => rw [hrec] at hr; cases hr
        | ok r2 =>
          rw [hrec] at hr
          cases hr
          have := ih (timeUpd ts p.time) r2 hrec
          simp [this]

/-- Witness for C6 amended at a concrete route point with a missing lat
attribute and a non-numeric lon attribute: the point is still emitted (one
point for one rtept), carrying NaN coordinates. -/
theorem claim_C6_amended_witness :
    ((none : Option JSDate), [(⟨JSNum.nan, JSNum.nan, none⟩ : Point)]).2.length =
      [(⟨none, some ⟨none, some "abc"⟩⟩ : GpxRtePt)].length :=
  claim_C6_amended.2 none [⟨none, some ⟨none, some "abc"⟩⟩]
    (none, [⟨JSNum.nan, JSNum.nan, none⟩]) rfl

/-- A list whose isEmpty test is false is not nil. -/
theorem ne_nil_of_isEmpty_false {α : Type} {l : List α} (h : l.isEmpty = false) :
    l ≠ [] := by
  intro hcon
  rw [hcon] at h
  simp at h

/-- Every track the GPX segment loop pushes has a nonempty point list. -/
theorem gpxTrkSegs_mem_nonempty (name sport : String) :
    ∀ (segs : List GpxTrkSeg) (ts : Option JSDate) (t : Track),
    t ∈ gpxTrkSegs name sport ts segs → t.points ≠ [] := by
  intro segs
  induction segs with
  | nil =>
      intro ts t ht
      simp [gpxTrkSegs] at ht
  | cons seg rest ih =>
      intro ts t ht
      rw [gpxTrkSegs] at ht
      cases he : (gpxSegStep ts seg.trkpt).2.isEmpty with
      | true =>
          rw [he] at ht
          simp only [if_pos rfl] at ht
          exact ih _ t ht
      | false =>
          rw [he] at ht
          simp only [if_neg (by simp : ¬ (false = true)), List.mem_cons] at ht
          rcases ht with rfl | ht
          · exact ne_nil_of_isEmpty_false he
          · exact ih _ t ht

/-- Every track the rte loop produces has a nonempty point list. -/
theorem processGpxRtes_mem_nonempty :
    ∀ (rtes : List GpxRte) (l : List Track), processGpxRtes rtes = .ok l →
    ∀ t ∈ l, t.points ≠ [] := by
  intro rtes
  induction rtes with
  | nil =>
      intro l hl t ht
      rw [processGpxRtes] at hl
      cases hl
      simp at ht
  | cons rte rest ih =>
      intro l hl t ht
      rw [processGpxRtes] at hl
      cases h1 : processGpxRte rte with
      | error e => rw [h1] at hl; cases hl
      | ok tr =>
          rw [h1] at hl
          cases h2 : processGpxRtes rest with
          | error e => rw [h2] at hl; cases hl
          | ok ts2 =>
              rw [h2] at hl
              cases hl
              rcases List.mem_append.mp ht with hta | htb
              · rw [processGpxRte] at h1
                cases h3 : gpxRteStep none rte.rtept with
                | error e => rw [h3] at h1; cases h1
                | ok r =>
                    rw [h3] at h1
                    cases h1
                    cases he : r.2.isEmpty with
                    | true =>
                        rw [he] at hta
                        simp at hta
                    | false =>
                        rw [he] at hta
                        simp only [if_neg (by simp : ¬ (false = true)),
                          List.mem_singleton] at hta
                        subst hta
                        exact ne_nil_of_isEmpty_false he
              · exact ih ts2 h2 t htb

/-- Every track the TCX Track-element processing produces is nonempty. -/
theorem tcxProcessTrack_mem_nonempty (name sport : String) (tr : TcxTrack) :
    ∀ t ∈ tcxProcessTrack name sport tr, t.points ≠ [] := by
  intro t ht
  rw [tcxProcessTrack] at ht
  cases he : (tcxPtsStep none (tr.Trackpoint.filter (fun p => p.Position.isSome))).2.isEmpty with
  | true =>
      rw [he] at ht
      simp at ht
  | false =>
      rw [he] at ht
      simp only [if_neg (by simp : ¬ (false = true)), List.mem_singleton] at ht
      subst ht
      exact ne_nil_of_isEmpty_false he

/-- Every track the TCX activity loop produces is nonempty. -/
theorem tcxProcessActivities_mem_nonempty (name : String) :
    ∀ (acts : List TcxActivity) (l : List Track), tcxProcessActivities name acts = .ok l →
    ∀ t ∈ l, t.points ≠ [] := by
  intro acts
  induction acts with
  | nil =>
      intro l hl t ht
      rw [tcxProcessActivities] at hl
      cases hl
      simp at ht
  | cons act rest ih =>
      intro l hl t ht
      rw [tcxProcessActivities] at hl
      cases h1 : tcxProcessActivity name act with
      | error e => rw [h1] at hl; cases hl
      | ok tr =>
          rw [h1] at hl
          cases h2 : tcxProcessActivities name rest with
          | error e => rw [h2] at hl; cases hl
          | ok ts2 =>
              rw [h2] at hl
              cases hl
              rcases List.mem_append.mp ht with hta | htb
              · rw [tcxProcessActivity] at h1
                cases h3 : tcxActivitySport act with
                | error e => rw [h3] at h1; cases h1
                | ok sp =>
                    rw [h3] at h1
                    cases h1
                    rcases List.mem_flatMap.mp hta with ⟨lap, _, hlap⟩
                    rw [tcxProcessLap] at hlap
                    cases h4 : lap.Track with
                    | none => rw [h4] at hlap; simp at hlap
                    | some trs =>
                        rw [h4] at hlap
                        rcases List.mem_flatMap.mp hlap with ⟨tcxtr, _, htr⟩
                        exact tcxProcessTrack_mem_nonempty name (getSport sp name) tcxtr t htr
              · exact ih ts2 h2 t htb

/-- C7: every track any of the four extractors returns has at least one
point — tracks, segments, activities and exercises parsing to zero points
are discarded before reaching the caller. -/
theorem claim_C7_tracks_nonempty :
    (∀ (gpx : GpxRoot) (l : List Track), extractGPXTracks gpx = .ok l →
      ∀ t ∈ l, t.points ≠ [])
    ∧ (∀ (tcx : TcxRoot) (name : String) (l : List Track),
      extractTCXTracks tcx name = .ok l → ∀ t ∈ l, t.points ≠ [])
    ∧ (∀ (fit : FITResult) (name : String) (l : List Track),
      extractFITTracks fit name = .ok l → ∀ t ∈ l, t.points ≠ [])
    ∧ (∀ (json : JsonRoot) (name : String),
      ∀ t ∈ extractJSONTracks json name, t.points ≠ []) := by
  refine ⟨?_, ?_, ?_, ?_⟩
  · intro gpx l hok t htl
    rw [extractGPXTracks] at hok
    by_cases hnone : (gpx.trk.isNone ∧ gpx.rte.isNone)
    · rw [if_pos hnone] at hok
      cases hok
    · rw [if_neg hnone] at hok
      cases hres : processGpxRtes (gpx.rte.getD []) with
      | error e => rw [hres] at hok; cases hok
      | ok rteTracks =>
          rw [hres] at hok
          cases hok
          rcases List.mem_append.mp htl with hta | htb
          · rcases List.mem_flatMap.mp hta with ⟨trk, _, hmem⟩
            rw [processGpxTrk] at hmem
            exact gpxTrkSegs_mem_nonempty _ _ trk.trkseg none t hmem
          · exact processGpxRtes_mem_nonempty _ rteTracks hres t htb
  · intro tcx name l hok t htl
    rw [extractTCXTracks] at hok
    cases hact : tcx.Activities with
    | none => rw [hact] at hok; cases hok
    | some acts =>
        rw [hact] at hok
        exact tcxProcessActivities_mem_nonempty name acts.Activity l hok t htl
  · intro fit name l hok t htl
    rw [extractFITTracks] at hok
    cases he : fit.records.isEmpty with
    | true =>
        rw [he] at hok
        simp at hok
    | false =>
        rw [he] at hok
        simp only [if_neg (by simp : ¬ (false = true)), Except.ok.injEq] at hok
        subst hok
        cases hpe : (fitLoop none fit.records).1.isEmpty with
        | true =>
            rw [hpe] at htl
            simp at htl
        | false =>
            rw [hpe] at htl
            simp only [if_neg (by simp : ¬ (false = true)), List.mem_singleton] at htl
            subst htl
            exact ne_nil_of_isEmpty_false hpe
  · intro json name t htl
    rw [extractJSONTracks] at htl
    rcases List.mem_flatMap.mp htl with ⟨ex, _, hmem⟩
    cases hroute : ex.samples.recordedRoute with
    | none => rw [hroute] at hmem; simp at hmem
    | some route =>
        rw [hroute] at hmem
        dsimp only at hmem
        cases hpe : (route.map jsonPointOf).isEmpty with
        | true =>
            rw [hpe] at hmem
            simp at hmem
        | false =>
            rw [hpe] at hmem
            simp only [if_neg (by simp : ¬ (false = true)), List.mem_singleton] at hmem
            subst hmem
            exact ne_nil_of_isEmpty_false hpe

/-- Witness for C7 at a concrete GPX input: the single produced track has a
nonempty point list. -/
theorem claim_C7_tracks_nonempty_witness :
    (⟨none, [⟨JSNum.nan, JSNum.nan, none⟩], "untitled", some "other"⟩ : Track).points ≠ [] :=
  claim_C7_tracks_nonempty.1
    ⟨some [⟨none, [⟨[⟨none, some ⟨some "x", some "y"⟩⟩]⟩]⟩], none⟩
    [⟨none, [⟨JSNum.nan, JSNum.nan, none⟩], "untitled", some "other"⟩]
    rfl
    ⟨none, [⟨JSNum.nan, JSNum.nan, none⟩], "untitled", some "other"⟩
    (List.mem_singleton.mpr rfl)

/-- The FIT record loop produces exactly the truthy-position records,
mapped to points, in order. -/
theorem fitLoop_fst (recs : List FITRecord) : ∀ ts : Option JSDate,
    (fitLoop ts recs).1 =
      (recs.filter (fun r => truthyNum r.position_lat && truthyNum r.position_long)).map
        fitPointOf := by
  induction recs with
  | nil => intro ts; rfl
  | cons r rest ih =>
      intro ts
      rw [fitLoop]
      cases hb : (truthyNum r.position_lat && truthyNum r.position_long) with
      | true =>
          rw [List.filter_cons_of_pos (by simp [hb])]
          simp [hb, ih]
      | false =>
          rw [List.filter_cons_of_neg (by simp [hb])]
          simp [hb, ih]

/-- C8: FIT extraction fails with the EmptyRecordSet error exactly when the
decoded record list is empty; and when records exist but none carries both
position fields, it returns the empty track list rather than an error. -/
theorem claim_C8_fit_error_conditions (fit : FITResult) (name : String) :
    (extractFITTracks fit name = .error (.error "Unexpected FIT file format.") ↔
      fit.records = [])
    ∧ (fit.records ≠ [] →
        (∀ r ∈ fit.records, r.position_lat = none ∨ r.position_long = none) →
        extractFITTracks fit name = .ok []) := by
  constructor
  · constructor
    · intro h
      cases hrec : fit.records with
      | nil => rfl
      | cons r rs =>
          rw [extractFITTracks, hrec] at h
          simp at h
    · intro h
      rw [extractFITTracks, h]
      rfl
  · intro hne hnopos
    have he : fit.records.isEmpty = false := by
      cases hrec : fit.records with
      | nil => exact absurd hrec hne
      | cons r rs => simp
    have hfilter : fit.records.filter
        (fun r => truthyNum r.position_lat && truthyNum r.position_long) = [] := by
      rw [List.filter_eq_nil_iff]
      intro r hr
      rcases hnopos r hr with hlat | hlong
      · simp [truthyNum, hlat]
      · simp [truthyNum, hlong]
    rw [extractFITTracks]
    rw [if_neg (by simp [he])]
    have : (fitLoop none fit.records).1 = [] := by
      rw [fitLoop_fst, hfilter]
      rfl
    simp [this]

/-- Witness for C8: one record with a missing latitude field gives an empty
track list, not an error. -/
theorem claim_C8_fit_error_conditions_witness :
    extractFITTracks ⟨[⟨none, some 1, none⟩], none, none⟩ "a.fit" = .ok [] :=
  (claim_C8_fit_error_conditions ⟨[⟨none, some 1, none⟩], none, none⟩ "a.fit").2
    (by decide) (by decide)

/-- C10: the produced FIT track contains exactly the records whose two
position fields are both truthy, so a record whose position_lat or
position_long is exactly 0 (falsy) or absent is excluded — a sample on the
equator or prime meridian is dropped even with both fields present. -/
theorem claim_C10_zero_position_dropped :
    (∀ (fit : FITResult) (name : String) (l : List Track),
      extractFITTracks fit name = .ok l → ∀ t ∈ l, t.points =
        (fit.records.filter
          (fun r => truthyNum r.position_lat && truthyNum r.position_long)).map fitPointOf)
    ∧ truthyNum (some 0) = false
    ∧ truthyNum none = false := by
  refine ⟨?_, by decide, rfl⟩
  intro fit name l hok t htl
  rw [extractFITTracks] at hok
  cases he : fit.records.isEmpty with
  | true => rw [he] at hok; simp at hok
  | false =>
      rw [he] at hok
      simp only [if_neg (by simp : ¬ (false = true)), Except.ok.injEq] at hok
      subst hok
      cases hpe : (fitLoop none fit.records).1.isEmpty with
      | true => rw [hpe] at htl; simp at htl
      | false =>
          rw [hpe] at htl
          simp only [if_neg (by simp : ¬ (false = true)), List.mem_singleton] at htl
          subst htl
          exact fitLoop_fst fit.records none

/-- Witness for C10: of two records, the one with position_lat exactly 0 is
dropped and only the other one's point is produced. -/
theorem claim_C10_zero_position_dropped_witness :
    (⟨none, [⟨JSNum.num 1, JSNum.num 2, none⟩], "f.fit", none⟩ : Track).points =
      ([(⟨some 0, some 5, none⟩ : FITRecord), ⟨some 1, some 2, none⟩].filter
        (fun r => truthyNum r.position_lat && truthyNum r.position_long)).map fitPointOf :=
  claim_C10_zero_position_dropped.1
    ⟨[⟨some 0, some 5, none⟩, ⟨some 1, some 2, none⟩], none, none⟩ "f.fit"
    [⟨none, [⟨JSNum.num 1, JSNum.num 2, none⟩], "f.fit", none⟩] rfl
    ⟨none, [⟨JSNum.num 1, JSNum.num 2, none⟩], "f.fit", none⟩
    (List.mem_singleton.mpr rfl)

/-- C9: for a filename whose extension dispatches to the shared XML parser
(gpx or tcx), extraction branches on the parsed root: a gpx root goes to
the GPX extractor, otherwise a TrainingCenterDatabase root goes to the TCX
extractor, and a document with neither root is rejected with the malformed
document error rather than guessing a format. -/
theorem claim_C9_xml_dispatch (name : String) (xml : XmlResult)
    (hfmt : fileFormat name = "gpx" ∨ fileFormat name = "tcx") :
    (∀ g : GpxRoot, xml.gpx = some g →
      extractTracksEntry name xml = extractGPXTracks g)
    ∧ (∀ t : TcxRoot, xml.gpx = none → xml.TrainingCenterDatabase = some t →
      extractTracksEntry name xml = extractTCXTracks t name)
    ∧ (xml.gpx = none → xml.TrainingCenterDatabase = none →
      extractTracksEntry name xml = .error (.error "Invalid file type.")) := by
  refine ⟨?_, ?_, ?_⟩
  · intro g hg
    rw [extractTracksEntry, if_pos hfmt, hg]
  · intro t h1 h2
    rw [extractTracksEntry, if_pos hfmt, h1, h2]
  · intro h1 h2
    rw [extractTracksEntry, if_pos hfmt, h1, h2]

/-- Witness for C9: a gpx-named file whose XML parses to neither known root
is rejected with the malformed document error. -/
theorem claim_C9_xml_dispatch_witness :
    extractTracksEntry "a.gpx" ⟨none, none⟩ = .error (.error "Invalid file type.") :=
  (claim_C9_xml_dispatch "a.gpx" ⟨none, none⟩ (Or.inl (by decide))).2.2 rfl rfl
